import Mathlib

/-!
# Verification of the statsite connection handler (`src/conn_handler.c`)

A shallow embedding of the ingress pipeline of statsite's `conn_handler.c`:
the text (statsd) parser, the binary parser, the per-line driver loops, the
flush rotation, and the binary output writer.  Bytes are modelled as natural
numbers, C `double` values arising from decimal text as exact rationals, and
`double` values moved verbatim by the binary protocol as their 64-bit
little-endian bit patterns.

The metrics accumulator library (`metrics.c`) and the buffered stream reader
(`networking.c`) are not part of the sources; where their behavior matters it
is modelled from the specification, and each such definition is marked
`Modelled from the spec:` in its doc comment.

Rational arithmetic is routed through kernel-computable wrappers (`qAdd`,
`qMul`, `qDiv`, ...) proved equal to the field operations of `ℚ`, so that
concrete runs of the embedded code can be settled by `decide`.
-/

namespace Statsite

/-! ## Kernel-computable rational arithmetic -/

/-- Addition on `ℚ` through the smart constructor `mkRat`; equals `a + b`
(`qAdd_eq`). -/
def qAdd (a b : ℚ) : ℚ := mkRat (a.num * b.den + b.num * a.den) (a.den * b.den)

/-- Multiplication on `ℚ` through `mkRat`; equals `a * b` (`qMul_eq`). -/
def qMul (a b : ℚ) : ℚ := mkRat (a.num * b.num) (a.den * b.den)

/-- Division on `ℚ` through `Rat.divInt`; equals `a / b` (`qDiv_eq`). -/
def qDiv (a b : ℚ) : ℚ := Rat.divInt (a.num * b.den) (a.den * b.num)

/-- Division of `a` by `10 ^ d`; equals `a / 10 ^ d` (`qDivPow10_eq`). -/
def qDivPow10 (a : ℚ) (d : ℕ) : ℚ := mkRat a.num (a.den * 10 ^ d)

/-- Negation on `ℚ` through `mkRat`; equals `-a` (`qNeg_eq`). -/
def qNeg (a : ℚ) : ℚ := mkRat (-a.num) a.den

theorem qAdd_eq (a b : ℚ) : qAdd a b = a + b := by
  unfold qAdd
  rw [Rat.mkRat_eq_div]
  push_cast
  conv_rhs => rw [← Rat.num_div_den a, ← Rat.num_div_den b]
  rw [div_add_div _ _ (by positivity) (by positivity)]
  ring_nf

theorem qMul_eq (a b : ℚ) : qMul a b = a * b := by
  unfold qMul
  rw [Rat.mkRat_eq_div]
  push_cast
  conv_rhs => rw [← Rat.num_div_den a, ← Rat.num_div_den b]
  rw [div_mul_div_comm]

theorem qDiv_eq (a b : ℚ) : qDiv a b = a / b := by
  unfold qDiv
  rw [Rat.divInt_eq_div]
  push_cast
  rcases eq_or_ne b 0 with hb | hb
  · subst hb; simp
  · have hbn : (b.num : ℚ) ≠ 0 := by
      simpa [Rat.num_eq_zero] using hb
    have had : ((a.den : ℚ)) ≠ 0 := by positivity
    have hbd : ((b.den : ℚ)) ≠ 0 := by positivity
    conv_rhs => rw [← Rat.num_div_den a, ← Rat.num_div_den b]
    field_simp

theorem qDivPow10_eq (a : ℚ) (d : ℕ) : qDivPow10 a d = a / 10 ^ d := by
  unfold qDivPow10
  rw [Rat.mkRat_eq_div]
  push_cast
  conv_rhs => rw [← Rat.num_div_den a]
  rw [div_div]

theorem qNeg_eq (a : ℚ) : qNeg a = -a := by
  unfold qNeg
  rw [Rat.mkRat_eq_div]
  push_cast
  rw [neg_div, Rat.num_div_den]

/-! ## Data model -/

/-- ASCII byte list of a Lean string, used to write concrete inputs. -/
def asc (s : String) : List Nat := s.data.map Char.toNat

/-- The metric types of `metrics.h` (`KEY_VAL`, `GAUGE`, `GAUGE_DELTA`,
`COUNTER`, `TIMER`, `SET`, `UNKNOWN`). -/
inductive MetricType where
  | keyVal
  | gauge
  | gaugeDelta
  | counter
  | timer
  | set
  | unknown
deriving DecidableEq, Repr

/-- Modelled from the spec: the per-metric accumulators of the missing
`metrics.c` (§3 Data Model).  A counter keeps a running sum and count, a gauge
a single value, timers and key/values keep the observed values, a set its
member strings. -/
inductive Acc where
  | counterA (sum : ℚ) (cnt : ℕ)
  | gaugeA (v : ℚ)
  | timerA (vals : List ℚ)
  | kvA (vals : List ℚ)
  | setA (members : List (List Nat))
deriving DecidableEq, Repr

/-- Modelled from the spec: a registry is a mapping from metric name to
accumulator (§3), represented as an association list on byte-list names. -/
def Registry := List (List Nat × Acc)
deriving DecidableEq

instance : Inhabited Registry := ⟨([] : List (List Nat × Acc))⟩

/-- The empty registry of a fresh epoch. -/
def Registry.empty : Registry := ([] : List (List Nat × Acc))

/-- Name lookup in a registry. -/
def lookupReg (reg : Registry) (name : List Nat) : Option Acc :=
  match reg with
  | [] => none
  | (n, a) :: rest => if n = name then some a else lookupReg rest name

/-- Modelled from the spec: the fresh accumulator created by
`metrics_add_sample` on first sight of a name (§4.4): a `GaugeDelta` sample
creates a gauge starting from 0. -/
def freshAcc (t : MetricType) (v : ℚ) : Option Acc :=
  match t with
  | .counter => some (.counterA v 1)
  | .gauge => some (.gaugeA v)
  | .gaugeDelta => some (.gaugeA (qAdd 0 v))
  | .timer => some (.timerA [v])
  | .keyVal => some (.kvA [v])
  | _ => none

/-- Modelled from the spec: how `metrics_add_sample` folds a value into an
existing accumulator (§4.4): counters add, `Gauge` replaces, `GaugeDelta`
adds; a sample whose type conflicts with the stored accumulator is silently
ignored (§9a). -/
def mergeAcc (t : MetricType) (v : ℚ) (a : Acc) : Acc :=
  match t, a with
  | .counter, .counterA s c => .counterA (qAdd s v) (c + 1)
  | .gauge, .gaugeA _ => .gaugeA v
  | .gaugeDelta, .gaugeA w => .gaugeA (qAdd w v)
  | .timer, .timerA vs => .timerA (vs ++ [v])
  | .keyVal, .kvA vs => .kvA (vs ++ [v])
  | _, _ => a

/-- Update the accumulator stored under `name`. -/
def setReg (reg : Registry) (name : List Nat) (a : Acc) : Registry :=
  match reg with
  | [] => []
  | (n, b) :: rest =>
      if n = name then (n, a) :: rest else (n, b) :: setReg rest name a

/-- Modelled from the spec: `metrics_add_sample` (§4.4). -/
def addSample (reg : Registry) (t : MetricType) (name : List Nat) (v : ℚ) :
    Registry :=
  match lookupReg reg name with
  | none =>
      match freshAcc t v with
      | some a => (name, a) :: reg
      | none => reg
  | some a => setReg reg name (mergeAcc t v a)

/-- Modelled from the spec: `metrics_set_update` folds a member string into
the set accumulator named `name` (§4.4). -/
def addSetMember (reg : Registry) (name member : List Nat) : Registry :=
  match lookupReg reg name with
  | none => (name, .setA [member]) :: reg
  | some (.setA ms) => setReg reg name (.setA (ms ++ [member]))
  | some _ => reg

/-- The reported sum of a counter (`counter_sum`). -/
def counterSum (reg : Registry) (name : List Nat) : ℚ :=
  match lookupReg reg name with
  | some (.counterA s _) => s
  | _ => 0

/-- The reported count of a counter (`counter_count`). -/
def counterCount (reg : Registry) (name : List Nat) : ℕ :=
  match lookupReg reg name with
  | some (.counterA _ c) => c
  | _ => 0

/-- The reported value of a gauge. -/
def gaugeVal (reg : Registry) (name : List Nat) : ℚ :=
  match lookupReg reg name with
  | some (.gaugeA v) => v
  | _ => 0

/-- The connection-handler configuration surface used by ingestion:
`GLOBAL_CONFIG->input_counter`. -/
structure Config where
  inputCounter : Option (List Nat)
deriving DecidableEq

/-- A configuration with no input counter. -/
def cfg0 : Config := ⟨none⟩

/-! ## Text parser -/

/-- Embedding of `buffer_after_terminator` (conn_handler.c:572): scan `buf` for the first
occurrence of `term`; return the bytes before it (the C code NUL-terminates
them in place) and the bytes after it, or `none` if absent. -/
def bufferAfterTerminator (term : Nat) : List Nat → Option (List Nat × List Nat)
  | [] => none
  | b :: rest =>
      if b = term then some ([], rest)
      else
        match bufferAfterTerminator term rest with
        | none => none
        | some (a, c) => some (b :: a, c)

/-- Digit test `'0' <= *s && *s <= '9'` of `str2double`. -/
def isDigitB (c : Nat) : Prop := 48 ≤ c ∧ c ≤ 57

instance (c : Nat) : Decidable (isDigitB c) := by
  unfold isDigitB; infer_instance

/-- The integer-part loop of `str2double` (conn_handler.c:308):
`val = val*10 + (*s - '0')` over a maximal digit run. -/
def intLoop (v : ℚ) : List Nat → ℚ × List Nat
  | [] => (v, [])
  | c :: s =>
      if isDigitB c then intLoop (qAdd (qMul v 10) ((c - 48 : ℕ) : ℚ)) s
      else (v, c :: s)

/-- The fraction loop of `str2double` (conn_handler.c:315): accumulates the
fractional digits and their number. -/
def fracLoop (f : ℚ) (d : ℕ) : List Nat → ℚ × ℕ × List Nat
  | [] => (f, d, [])
  | c :: s =>
      if isDigitB c then fracLoop (qAdd (qMul f 10) ((c - 48 : ℕ) : ℚ)) (d + 1) s
      else (f, d, c :: s)

/-- Embedding of `str2double` (conn_handler.c:301): optional leading `-`, integer digit
run, optional `.` and fractional digit run; returns the value and the
unconsumed suffix (the C `*end` pointer). -/
def str2double (s : List Nat) : ℚ × List Nat :=
  let p : Bool × List Nat :=
    if s.headD 0 = 45 then (true, s.tail) else (false, s)
  let q := intLoop 0 p.2
  let r :=
    if q.2.headD 0 = 46 then
      let w := fracLoop 0 0 q.2.tail
      (qAdd q.1 (qDivPow10 w.1 w.2.1), w.2.2)
    else q
  (if p.1 then qNeg r.1 else r.1, r.2)

/-- The `switch (*type_str)` of `handle_ascii_client_connect`
(conn_handler.c:352). -/
def typeOfByte (c : Nat) : MetricType :=
  if c = 99 then .counter
  else if c = 109 then .timer
  else if c = 107 then .keyVal
  else if c = 103 then .gauge
  else if c = 115 then .set
  else .unknown

/-- The `metrics` calls a parsed line gives rise to. -/
inductive Ingest where
  | sample (t : MetricType) (key : List Nat) (v : ℚ)
  | setU (key member : List Nat)
deriving DecidableEq, Repr

/-- One iteration of `handle_ascii_client_connect` (conn_handler.c:338-419)
on a line already extracted by `extract_to_terminator` (terminator excluded;
the reader replaces it by a NUL, hence the appended `0`).  Returns the
registry after the line (the input-counter increment happens before value
conversion and thus persists even when the line is then rejected), the
`metrics` call made for the line's own sample, and whether the line was
accepted (`false` = `ERR_RET`, the handler returns -1). -/
def processLine (cfg : Config) (reg : Registry) (line : List Nat) :
    Registry × Option Ingest × Bool :=
  let buf := line ++ [0]
  match bufferAfterTerminator 58 buf with
  | none => (reg, none, false)
  | some (key, rest1) =>
    match bufferAfterTerminator 124 rest1 with
    | none => (reg, none, false)
    | some (valStr0, typeStr) =>
      -- the type switch, including the gauge delta sub-switch
      -- (a leading '+' is consumed and falls through to GAUGE_DELTA,
      -- a leading '-' is retained and also yields GAUGE_DELTA)
      let tv : MetricType × List Nat :=
        match typeOfByte (typeStr.headD 0) with
        | .gauge =>
            if valStr0.headD 0 = 43 then (.gaugeDelta, valStr0.tail)
            else if valStr0.headD 0 = 45 then (.gaugeDelta, valStr0)
            else (.gauge, valStr0)
        | ty => (ty, valStr0)
      if tv.1 = .unknown then (reg, none, false)
      else
        -- increment the number of inputs received
        let reg1 :=
          match cfg.inputCounter with
          | some ic => addSample reg .counter ic 1
          | none => reg
        -- fast track the set updates
        if tv.1 = .set then
          (addSetMember reg1 key tv.2, some (.setU key tv.2), true)
        else
          -- convert the value to a double
          let vr := str2double tv.2
          if vr.2 = tv.2 then (reg1, none, false)
          else
            -- handle counter sampling if applicable
            match
              (if tv.1 = .counter then bufferAfterTerminator 64 typeStr
               else none) with
            | some (_, sampleStr) =>
                let sr := str2double sampleStr
                if sr.2 = sampleStr then (reg1, none, false)
                else
                  let v :=
                    if 0 < sr.1 ∧ sr.1 ≤ 1 then qMul vr.1 (qDiv 1 sr.1)
                    else vr.1
                  (addSample reg1 tv.1 key v, some (.sample tv.1 key v), true)
            | none =>
                (addSample reg1 tv.1 key vr.1,
                 some (.sample tv.1 key vr.1), true)

/-- The line loop of `handle_ascii_client_connect`: repeatedly extract a
`\n`-terminated line and process it; stop with status 0 when no full line is
buffered (leftover bytes stay in the connection buffer), with status -1 on a
parse error.  The fuel is an upper bound on iterations; each iteration
consumes at least the terminator byte. -/
def asciiLoop (cfg : Config) : ℕ → Registry → List Nat →
    Registry × List Nat × Int
  | 0, reg, buf => (reg, buf, 0)
  | fuel + 1, reg, buf =>
    match bufferAfterTerminator 10 buf with
    | none => (reg, buf, 0)
    | some (line, rest) =>
        match processLine cfg reg line with
        | (reg', _, true) => asciiLoop cfg fuel reg' rest
        | (reg', _, false) => (reg', rest, -1)

/-- Runs `handle_ascii_client_connect` on the currently buffered bytes. -/
def handleAscii (cfg : Config) (reg : Registry) (buf : List Nat) :
    Registry × List Nat × Int :=
  asciiLoop cfg (buf.length + 1) reg buf

/-! ## Binary parser -/

/-- Little-endian value of a byte list (`readLEList [b0, b1, ...] = b0 +
256*b1 + ...`). -/
def readLEList : List Nat → Nat
  | [] => 0
  | b :: rest => b + 256 * readLEList rest

/-- The little-endian bytes of `n`, `w` bytes wide (the memory image of a
packed unsigned integer on the little-endian hosts statsite targets). -/
def leBytes : ℕ → ℕ → List Nat
  | 0, _ => []
  | w + 1, n => n % 256 :: leBytes w (n / 256)

/-- The `switch (cmd[1])` of `handle_binary_client_connect`
(conn_handler.c:496): the binary type codes `BIN_TYPE_*`.  Code 4 (`SET`) is
routed to `handle_binary_set` and never reaches this mapping. -/
def typeOfBinByte (c : Nat) : MetricType :=
  if c = 1 then .keyVal
  else if c = 2 then .counter
  else if c = 3 then .timer
  else if c = 5 then .gauge
  else if c = 6 then .gaugeDelta
  else .unknown

/-- The `key_len` field of a binary header: the little-endian `uint16_t` at
offset 2 (`*(uint16_t*)(cmd+2)`, conn_handler.c:530). -/
def binKeyLen (buf : List Nat) : Nat := buf.getD 2 0 + 256 * buf.getD 3 0

/-- The outcome of one record of the binary stream. -/
inductive BinResult where
  | needMore
  | errB
  | sampleB (t : MetricType) (key : List Nat) (valBits : Nat) (rest : List Nat)
  | setB (key member : List Nat) (rest : List Nat)
deriving DecidableEq, Repr

/-- One record of `handle_binary_client_connect` (conn_handler.c:475-558),
including the `handle_binary_set` path (conn_handler.c:429).  The handler
peeks a 6-byte header (`magic:u8 | type:u8 | key_len:u16` plus either the
first 2 value bytes or `set_len:u16`); a non-set record then needs
`12 + key_len` bytes (4-byte preamble, 8-byte double, key), a set record
`6 + key_len + set_len` bytes.  `needMore` consumes nothing (the underlying
`peek_client_bytes` / failed `read_client_bytes` leave the buffer intact —
modelled from the spec, `networking.c` is not in the sources); the value of a
non-set record is the little-endian 64-bit image of the double at offset 4. -/
def binaryStep (buf : List Nat) : BinResult :=
  if buf.length < 6 then .needMore
  else if buf.getD 0 0 ≠ 170 then .errB
  else if buf.getD 1 0 = 4 then
    -- handle_binary_set: header[1] is the key length, header[2] the set length
    let keyLen := binKeyLen buf
    let setLen := buf.getD 4 0 + 256 * buf.getD 5 0
    let valBytes := keyLen + setLen
    if buf.length < 6 + valBytes then .needMore
    else if buf.getD (6 + keyLen - 1) 0 ≠ 0 then .errB
    else if buf.getD (6 + valBytes - 1) 0 ≠ 0 then .errB
    else
      .setB ((buf.drop 6).take keyLen) ((buf.drop (6 + keyLen)).take setLen)
        (buf.drop (6 + valBytes))
  else if typeOfBinByte (buf.getD 1 0) = .unknown then .errB
  else
    let keyLen := binKeyLen buf
    if buf.length < 12 + keyLen then .needMore
    else if buf.getD (12 + keyLen - 1) 0 ≠ 0 then .errB
    else
      .sampleB (typeOfBinByte (buf.getD 1 0)) ((buf.drop 12).take keyLen)
        (readLEList ((buf.drop 4).take 8)) (buf.drop (12 + keyLen))

/-- A `metrics` call made by the binary handler: a sample ingested with the
bit pattern of its double, or a set update. -/
inductive BinIngest where
  | bSample (t : MetricType) (key : List Nat) (valBits : Nat)
  | bSetU (key member : List Nat)
deriving DecidableEq, Repr

/-- The record loop of `handle_binary_client_connect`: returns the ingested
records, the number of input-counter increments made (one per accepted
record, after all framing checks), the leftover bytes and the return status
(0 = need more data, -1 = framing error).  Fuel bounds the iterations; every
accepted record consumes at least 6 bytes. -/
def binLoop (cfg : Config) : ℕ → List Nat →
    List BinIngest × ℕ × List Nat × Int
  | 0, buf => ([], 0, buf, 0)
  | fuel + 1, buf =>
    match binaryStep buf with
    | .needMore => ([], 0, buf, 0)
    | .errB => ([], 0, buf, -1)
    | .sampleB t key bits rest =>
        let inc := if cfg.inputCounter.isSome then 1 else 0
        let r := binLoop cfg fuel rest
        (.bSample t key bits :: r.1, inc + r.2.1, r.2.2)
    | .setB key member rest =>
        let inc := if cfg.inputCounter.isSome then 1 else 0
        let r := binLoop cfg fuel rest
        (.bSetU key member :: r.1, inc + r.2.1, r.2.2)

/-- Runs `handle_binary_client_connect` on the currently buffered bytes. -/
def handleBinary (cfg : Config) (buf : List Nat) :
    List BinIngest × ℕ × List Nat × Int :=
  binLoop cfg (buf.length + 1) buf

/-! ## Connection driver -/

/-- The parser a driver invocation dispatches to. -/
inductive Mode where
  | text
  | binary
deriving DecidableEq, Repr

/-- Embedding of `handle_client_connect` (conn_handler.c:286): peek the first buffered
byte; no data means return 0 at once; `0xAA` dispatches the binary handler,
anything else the ASCII handler.  Returns the dispatched mode, the registry
after the text samples, the binary records ingested, the leftover buffer and
the status. -/
def handleClientConnect (cfg : Config) (reg : Registry) (buf : List Nat) :
    Option Mode × Registry × List BinIngest × List Nat × Int :=
  match buf with
  | [] => (none, reg, [], buf, 0)
  | b :: _ =>
      if b = 170 then
        let r := handleBinary cfg buf
        (some .binary, reg, r.1, r.2.2)
      else
        let r := handleAscii cfg reg buf
        (some .text, r.1, [], r.2)

/-! ## Flush rotation -/

/-- The global connection-handler state: `GLOBAL_METRICS` (a null pointer is
`none`), the registries retired to still-running detached flush workers, and
the registries whose flush worker has completed. -/
structure SysState where
  current : Option Registry
  pending : List Registry
  done : List Registry
deriving DecidableEq

/-- The state right after `init_conn_handler`: a fresh empty registry. -/
def initState : SysState := ⟨some Registry.empty, [], []⟩

/-- Embedding of `flush_interval_trigger` (conn_handler.c:244): make a fresh empty
registry, swap it in, hand the old registry to a detached flush worker. -/
def rotate (st : SysState) : SysState :=
  match st.current with
  | some old => ⟨some Registry.empty, st.pending ++ [old], st.done⟩
  | none => st

/-- Embedding of `final_flush` (conn_handler.c:264): take the last registry, leave
`GLOBAL_METRICS` as the null sentinel, run a flush worker on it and join it
before returning (its serialization is complete — `done` — when the call
returns). -/
def finalFlush (st : SysState) : SysState :=
  match st.current with
  | some old => ⟨none, st.pending, st.done ++ [old]⟩
  | none => ⟨none, st.pending, st.done⟩

/-- An ingress-visible event: one `metrics_add_sample` call, or a flush
rotation. -/
inductive Ev where
  | add (t : MetricType) (name : List Nat) (v : ℚ)
  | rotate
deriving DecidableEq

/-- One event against the global state.  Modelled from the spec: an
`add_sample` against the null sentinel left by `final_flush` is a no-op
(§4.5). -/
def stepEv (st : SysState) : Ev → SysState
  | .add t n v =>
      match st.current with
      | some r => ⟨some (addSample r t n v), st.pending, st.done⟩
      | none => st
  | .rotate => rotate st

/-- A sequential trace of ingress and rotation events. -/
def runEvs (st : SysState) (evs : List Ev) : SysState :=
  evs.foldl stepEv st

/-! ## Binary serializer -/

/-- Embedding of `stream_bin_writer` (conn_handler.c:145): the packed little-endian
`binary_out_prefix` (`timestamp:u64 | type:u8 | value_type:u8 | key_len:u16 |
value:f64`) followed by the NUL-terminated metric name, whose length
including the NUL is `key_len` (`strlen(name) + 1` as a `uint16_t`).  The
double's bits are written verbatim (`valBits` is its 64-bit little-endian
image). -/
def stream_bin_writer (timestamp ty valType : Nat) (valBits : Nat)
    (name : List Nat) : List Nat :=
  let keyLen := (name.length + 1) % 65536
  leBytes 8 timestamp ++ [ty % 256] ++ [valType % 256] ++ leBytes 2 keyLen ++
    leBytes 8 valBits ++ name ++ [0]

/-- Modelled from the spec: the inverse parser of the binary output format
(§8.5 round-trip) — read the 20-byte packed prefix, then `key_len` key bytes
whose last byte must be the NUL; yields the timestamp, type, value_type,
value bits, the key without its NUL, and the unread suffix. -/
def readBinRecord (buf : List Nat) :
    Option (Nat × Nat × Nat × Nat × List Nat × List Nat) :=
  if buf.length < 20 then none
  else
    let ts := readLEList (buf.take 8)
    let ty := (buf.drop 8).headD 0
    let vt := (buf.drop 9).headD 0
    let kl := readLEList ((buf.drop 10).take 2)
    let vb := readLEList ((buf.drop 12).take 8)
    if buf.length < 20 + kl then none
    else
      let keyArea := (buf.drop 20).take kl
      if keyArea.getLast? = some 0 then
        some (ts, ty, vt, vb, keyArea.dropLast, buf.drop (20 + kl))
      else none

/-! ## Helper lemmas -/

theorem bat_append {term : Nat} {a : List Nat} (b : List Nat)
    (h : term ∉ a) :
    bufferAfterTerminator term (a ++ term :: b) = some (a, b) := by
  induction a with
  | nil => simp [bufferAfterTerminator]
  | cons x xs ih =>
      have hx : x ≠ term := by
        intro e; exact h (by simp [e])
      have hxs : term ∉ xs := by
        intro e; exact h (by simp [e])
      simp [bufferAfterTerminator, hx, ih hxs]

theorem bat_none {term : Nat} {a : List Nat} (h : term ∉ a) :
    bufferAfterTerminator term a = none := by
  induction a with
  | nil => rfl
  | cons x xs ih =>
      have hx : x ≠ term := by
        intro e; exact h (by simp [e])
      have hxs : term ∉ xs := by
        intro e; exact h (by simp [e])
      simp [bufferAfterTerminator, hx, ih hxs]

theorem lookup_setReg_self {reg : Registry} {name : List Nat} {b : Acc}
    (h : lookupReg reg name = some b) (a : Acc) :
    lookupReg (setReg reg name a) name = some a := by
  induction reg with
  | nil => simp [lookupReg] at h
  | cons p rest ih =>
      by_cases hp : p.1 = name
      · simp [setReg, lookupReg, hp]
      · simp only [lookupReg, hp, if_false] at h
        simp [setReg, lookupReg, hp, ih h]

theorem lookup_setReg_other {reg : Registry} {name other : List Nat}
    (h : other ≠ name) (a : Acc) :
    lookupReg (setReg reg name a) other = lookupReg reg other := by
  have hno : name ≠ other := fun e => h e.symm
  induction reg with
  | nil => simp [setReg]
  | cons p rest ih =>
      by_cases hp : p.1 = name
      · simp [setReg, lookupReg, hp, hno]
      · simp [setReg, lookupReg, hp, ih]

/-- Lemma: `addSample` on a counter accumulator adds the value and bumps the count. -/
theorem addSample_counter_found {reg : Registry} {name : List Nat} {s : ℚ}
    {c : ℕ} (h : lookupReg reg name = some (.counterA s c)) (v : ℚ) :
    lookupReg (addSample reg .counter name v) name =
      some (.counterA (s + v) (c + 1)) := by
  rw [addSample, h]
  have := lookup_setReg_self h (mergeAcc .counter v (.counterA s c))
  simpa [mergeAcc, qAdd_eq] using this

/-- Lemma: `addSample` on a fresh counter name creates the accumulator `(v, 1)`. -/
theorem addSample_counter_fresh {reg : Registry} {name : List Nat}
    (h : lookupReg reg name = none) (v : ℚ) :
    lookupReg (addSample reg .counter name v) name =
      some (.counterA v 1) := by
  rw [addSample, h]
  simp [freshAcc, lookupReg]

/-- Lemma: `addSample` leaves the accumulators of other names unchanged. -/
theorem addSample_other {reg : Registry} {name other : List Nat}
    (h : other ≠ name) (t : MetricType) (v : ℚ) :
    lookupReg (addSample reg t name v) other = lookupReg reg other := by
  have hno : name ≠ other := fun e => h e.symm
  rw [addSample]
  cases hl : lookupReg reg name with
  | none =>
      cases hf : freshAcc t v with
      | none => rfl
      | some a => simp [lookupReg, hno]
  | some a => exact lookup_setReg_other h _

/-- Lemma: `addSetMember` leaves the accumulators of other names unchanged. -/
theorem addSetMember_other {reg : Registry} {name other : List Nat}
    (h : other ≠ name) (member : List Nat) :
    lookupReg (addSetMember reg name member) other = lookupReg reg other := by
  have hno : name ≠ other := fun e => h e.symm
  rw [addSetMember]
  cases hl : lookupReg reg name with
  | none => simp [lookupReg, hno]
  | some a =>
      cases a with
      | setA ms => exact lookup_setReg_other h _
      | counterA s c => rfl
      | gaugeA v => rfl
      | timerA vs => rfl
      | kvA vs => rfl

/-! ## Counter lines (C1) -/

/-- The text line `key ":" value "|c"` with an optional `"@" rate` suffix. -/
def counterLine (key v : List Nat) (r : Option (List Nat)) : List Nat :=
  key ++ [58] ++ v ++ [124, 99] ++
    (match r with
     | none => []
     | some rs => 64 :: rs)

/-- Modelled from the spec: the contribution of one counter sample to the
reported sum — `v/r` when the rate is present and in `(0, 1]`, `v`
otherwise (§4.1 sample rate adjustment, §8.1 counter additivity). -/
def specCounterContrib (v : ℚ) (r : Option ℚ) : ℚ :=
  match r with
  | none => v
  | some sr => if 0 < sr ∧ sr ≤ 1 then v / sr else v

/-- The rate a counter line's `@`-suffix parses to (the scanner hands
`str2double` the slice after `@`, which ends at the line's NUL). -/
def parsedRate (r : Option (List Nat)) : Option ℚ :=
  r.map fun rs => (str2double (rs ++ [0])).1

/-- A well-formed counter line is processed as a single
`metrics_add_sample(COUNTER, key, contribution)`. -/
theorem processLine_counterLine {key v : List Nat} (r : Option (List Nat))
    (reg : Registry)
    (hk : (58 : Nat) ∉ key) (hv : (124 : Nat) ∉ v)
    (hval : (str2double v).2 ≠ v)
    (hr : ∀ rs, r = some rs → (str2double (rs ++ [0])).2 ≠ rs ++ [0]) :
    processLine cfg0 reg (counterLine key v r) =
      (addSample reg .counter key
         (specCounterContrib (str2double v).1 (parsedRate r)),
       some (.sample .counter key
         (specCounterContrib (str2double v).1 (parsedRate r))), true) := by
  cases r with
  | none =>
      have e1 : counterLine key v none ++ [0] =
          key ++ 58 :: (v ++ 124 :: (99 :: [0])) := by
        simp [counterLine]
      have e2 : bufferAfterTerminator 64 (99 :: [0]) = none := by
        simp [bufferAfterTerminator]
      simp [processLine, e1, bat_append _ hk, bat_append _ hv, typeOfByte,
        e2, hval, specCounterContrib, parsedRate, cfg0]
  | some rs =>
      have e1 : counterLine key v (some rs) ++ [0] =
          key ++ 58 :: (v ++ 124 :: (99 :: 64 :: (rs ++ [0]))) := by
        simp [counterLine]
      have e2 : bufferAfterTerminator 64 (99 :: 64 :: (rs ++ [0])) =
          some ([99], rs ++ [0]) := by
        simp [bufferAfterTerminator]
      have hrs := hr rs rfl
      simp only [processLine, e1, bat_append _ hk, bat_append _ hv]
      simp [typeOfByte, e2, hval, hrs, specCounterContrib, parsedRate,
        cfg0, qMul_eq, qDiv_eq, mul_one_div, div_eq_mul_inv]

/-- Folding a list of counter lines for `key` into a registry, starting from
the empty registry of a fresh epoch. -/
def ingestCounterLines (key : List Nat)
    (samples : List (List Nat × Option (List Nat))) : Registry :=
  samples.foldl
    (fun reg p => (processLine cfg0 reg (counterLine key p.1 p.2)).1)
    Registry.empty

theorem counterFold {key : List Nat} (hk : (58 : Nat) ∉ key) :
    ∀ (samples : List (List Nat × Option (List Nat)))
      (reg : Registry) (s : ℚ) (c : ℕ),
      (∀ p ∈ samples, (124 : Nat) ∉ p.1 ∧ (str2double p.1).2 ≠ p.1 ∧
        ∀ rs, p.2 = some rs → (str2double (rs ++ [0])).2 ≠ rs ++ [0]) →
      lookupReg reg key = some (.counterA s c) →
      lookupReg
        (samples.foldl
          (fun reg p => (processLine cfg0 reg (counterLine key p.1 p.2)).1)
          reg) key =
        some (.counterA
          (s + (samples.map
            (fun p => specCounterContrib (str2double p.1).1 (parsedRate p.2))).sum)
          (c + samples.length)) := by
  intro samples
  induction samples with
  | nil => intro reg s c _ hreg; simpa using hreg
  | cons p ps ih =>
      intro reg s c hall hreg
      have hp := hall p (by simp)
      have hstep := processLine_counterLine p.2 reg hk hp.1 hp.2.1 hp.2.2
      have hnext :
          lookupReg (processLine cfg0 reg (counterLine key p.1 p.2)).1 key =
            some (.counterA
              (s + specCounterContrib (str2double p.1).1 (parsedRate p.2))
              (c + 1)) := by
        rw [hstep]
        exact addSample_counter_found hreg _
      have hall' : ∀ q ∈ ps, (124 : Nat) ∉ q.1 ∧ (str2double q.1).2 ≠ q.1 ∧
          ∀ rs, q.2 = some rs → (str2double (rs ++ [0])).2 ≠ rs ++ [0] :=
        fun q hq => hall q (by simp [hq])
      have := ih _ _ _ hall' hnext
      simpa [List.foldl_cons, add_assoc, add_comm, add_left_comm,
        Nat.add_assoc, Nat.add_comm, Nat.add_left_comm] using this

/-- C1: for every sequence of text counter samples with values `v₁…vₙ` and
optional sample rates, a rate present and in `(0, 1]` scales the value by
`1/rate` before ingestion and a rate outside `(0, 1]` is ignored, so the
counter's reported sum is `Σ vᵢ/rᵢ` (with `rᵢ = 1` when absent or out of
range) and the reported count is `n`; in particular feeding
`"a:1|c\na:2|c\na:3|c@0.5\n"` yields the record sum 9 and count 3. -/
theorem claim_C1 :
    (∀ (key : List Nat) (samples : List (List Nat × Option (List Nat))),
      (58 : Nat) ∉ key →
      (∀ p ∈ samples, (124 : Nat) ∉ p.1 ∧ (str2double p.1).2 ≠ p.1 ∧
        ∀ rs, p.2 = some rs → (str2double (rs ++ [0])).2 ≠ rs ++ [0]) →
      counterSum (ingestCounterLines key samples) key =
        (samples.map
          (fun p => specCounterContrib (str2double p.1).1 (parsedRate p.2))).sum ∧
      counterCount (ingestCounterLines key samples) key = samples.length) ∧
    counterSum
      (handleAscii cfg0 Registry.empty (asc "a:1|c\na:2|c\na:3|c@0.5\n")).1
      (asc "a") = 9 ∧
    counterCount
      (handleAscii cfg0 Registry.empty (asc "a:1|c\na:2|c\na:3|c@0.5\n")).1
      (asc "a") = 3 := by
  refine ⟨?_, by decide, by decide⟩
  intro key samples hk hall
  cases samples with
  | nil => simp [ingestCounterLines, counterSum, counterCount, Registry.empty,
      lookupReg]
  | cons p ps =>
      have hp := hall p (by simp)
      have hstep := processLine_counterLine p.2 Registry.empty hk hp.1 hp.2.1
        hp.2.2
      have hfirst :
          lookupReg
            (processLine cfg0 Registry.empty (counterLine key p.1 p.2)).1 key
          = some (.counterA
              (specCounterContrib (str2double p.1).1 (parsedRate p.2)) 1) := by
        rw [hstep]
        exact addSample_counter_fresh
          (show lookupReg Registry.empty key = none from rfl) _
      have hall' : ∀ q ∈ ps, (124 : Nat) ∉ q.1 ∧ (str2double q.1).2 ≠ q.1 ∧
          ∀ rs, q.2 = some rs → (str2double (rs ++ [0])).2 ≠ rs ++ [0] :=
        fun q hq => hall q (by simp [hq])
      have := counterFold hk ps _ _ _ hall' hfirst
      constructor
      · simp only [ingestCounterLines, List.foldl_cons]
        simp [counterSum, this]
      · simp only [ingestCounterLines, List.foldl_cons]
        simp [counterCount, this, Nat.add_comm]

/-- Witness for `claim_C1`: three counter samples `1`, `2` and `3@0.5` on key
`a` report sum `1 + 2 + 3/0.5 = 9` and count 3. -/
theorem claim_C1_witness :
    ((58 : Nat) ∉ asc "a") ∧
    counterSum
      (ingestCounterLines (asc "a")
        [(asc "1", none), (asc "2", none), (asc "3", some (asc "0.5"))])
      (asc "a") =
      ([specCounterContrib (str2double (asc "1")).1 (parsedRate none),
        specCounterContrib (str2double (asc "2")).1 (parsedRate none),
        specCounterContrib (str2double (asc "3")).1
          (parsedRate (some (asc "0.5")))] : List ℚ).sum ∧
    counterCount
      (ingestCounterLines (asc "a")
        [(asc "1", none), (asc "2", none), (asc "3", some (asc "0.5"))])
      (asc "a") = 3 := by
  have h := claim_C1.1 (asc "a")
    [(asc "1", none), (asc "2", none), (asc "3", some (asc "0.5"))]
    (by decide) (by decide)
  exact ⟨by decide, h.1, h.2⟩

/-! ## Gauge lines (C2) -/

/-- C2 counterexample: the claim says a leading `+` on a gauge value is
consumed and the sample ingested with type `Gauge` (replacing the stored
value).  In the code the `case '+'` of the value sub-switch falls through to
`case '-'`, so the sample is ingested as `GaugeDelta`: `"x:+3|g"` ingests
`(GAUGE_DELTA, x, 3)`, and after `"x:5|g"` it yields 8 (5 + 3), not the
replacement 3. -/
theorem claim_C2_cex :
    (processLine cfg0 Registry.empty (asc "x:+3|g")).2.1 =
      some (.sample .gaugeDelta (asc "x") 3) ∧
    (processLine cfg0 Registry.empty (asc "x:+3|g")).2.1 ≠
      some (.sample .gauge (asc "x") 3) ∧
    gaugeVal
      (processLine cfg0 (processLine cfg0 Registry.empty (asc "x:5|g")).1
        (asc "x:+3|g")).1 (asc "x") = 8 ∧
    gaugeVal
      (processLine cfg0 (processLine cfg0 Registry.empty (asc "x:5|g")).1
        (asc "x:+3|g")).1 (asc "x") ≠ 3 := by
  refine ⟨by decide, by decide, by decide, by decide⟩

/-- C2 (amended): on a `g` line, a leading `+` of the value is consumed and
the sample is ingested with type `GaugeDelta` (added to the stored value,
starting from 0 if absent) — not `Gauge`; a leading `-` is retained (keeping
the sign) and likewise yields `GaugeDelta`; any other value is a plain
`Gauge`, replacing the stored value.  The spec's own gauge scenarios (§8.2)
hold unchanged. -/
theorem claim_C2_amended :
    (∀ (key v' : List Nat) (reg : Registry),
      (58 : Nat) ∉ key → (124 : Nat) ∉ v' → (str2double v').2 ≠ v' →
      processLine cfg0 reg (key ++ [58] ++ (43 :: v') ++ [124, 103]) =
        (addSample reg .gaugeDelta key (str2double v').1,
         some (.sample .gaugeDelta key (str2double v').1), true)) ∧
    (∀ (key v'' : List Nat) (reg : Registry),
      (58 : Nat) ∉ key → (124 : Nat) ∉ v'' →
      (str2double (45 :: v'')).2 ≠ 45 :: v'' →
      processLine cfg0 reg (key ++ [58] ++ (45 :: v'') ++ [124, 103]) =
        (addSample reg .gaugeDelta key (str2double (45 :: v'')).1,
         some (.sample .gaugeDelta key (str2double (45 :: v'')).1), true)) ∧
    (∀ (key v : List Nat) (reg : Registry),
      (58 : Nat) ∉ key → (124 : Nat) ∉ v →
      v.headD 0 ≠ 43 → v.headD 0 ≠ 45 → (str2double v).2 ≠ v →
      processLine cfg0 reg (key ++ [58] ++ v ++ [124, 103]) =
        (addSample reg .gauge key (str2double v).1,
         some (.sample .gauge key (str2double v).1), true)) ∧
    (∀ (reg : Registry) (key : List Nat) (w v : ℚ),
      lookupReg reg key = some (.gaugeA w) →
      lookupReg (addSample reg .gaugeDelta key v) key = some (.gaugeA (w + v)) ∧
      lookupReg (addSample reg .gauge key v) key = some (.gaugeA v)) ∧
    (∀ (reg : Registry) (key : List Nat) (v : ℚ),
      lookupReg reg key = none →
      lookupReg (addSample reg .gaugeDelta key v) key = some (.gaugeA (0 + v)) ∧
      lookupReg (addSample reg .gauge key v) key = some (.gaugeA v)) ∧
    gaugeVal
      (processLine cfg0
        (processLine cfg0 (processLine cfg0 Registry.empty (asc "x:5|g")).1
          (asc "x:7|g")).1 (asc "x:-2|g")).1 (asc "x") = 5 ∧
    gaugeVal
      (processLine cfg0
        (processLine cfg0 (processLine cfg0 Registry.empty (asc "x:5|g")).1
          (asc "x:-2|g")).1 (asc "x:-2|g")).1 (asc "x") = 1 ∧
    gaugeVal (processLine cfg0 Registry.empty (asc "x:+3|g")).1 (asc "x") = 3 := by
  refine ⟨?_, ?_, ?_, ?_, ?_, by decide, by decide, by decide⟩
  · intro key v' reg hk hv hval
    have hv43 : (124 : Nat) ∉ 43 :: v' := by
      intro h; rcases List.mem_cons.1 h with h | h
      · exact absurd h (by decide)
      · exact hv h
    have e1 : (key ++ [58] ++ (43 :: v') ++ [124, 103]) ++ [0] =
        key ++ 58 :: ((43 :: v') ++ 124 :: (103 :: [0])) := by
      simp
    have e2 : bufferAfterTerminator 124 (43 :: (v' ++ [124, 103, 0])) =
        some (43 :: v', [103, 0]) := by
      have := @bat_append 124 (43 :: v') [103, 0] hv43
      simpa using this
    simp [processLine, e1, bat_append _ hk, e2, typeOfByte, hval, cfg0]
  · intro key v'' reg hk hv hval
    have hv45 : (124 : Nat) ∉ 45 :: v'' := by
      intro h; rcases List.mem_cons.1 h with h | h
      · exact absurd h (by decide)
      · exact hv h
    have e1 : (key ++ [58] ++ (45 :: v'') ++ [124, 103]) ++ [0] =
        key ++ 58 :: ((45 :: v'') ++ 124 :: (103 :: [0])) := by
      simp
    have e2 : bufferAfterTerminator 124 (45 :: (v'' ++ [124, 103, 0])) =
        some (45 :: v'', [103, 0]) := by
      have := @bat_append 124 (45 :: v'') [103, 0] hv45
      simpa using this
    simp [processLine, e1, bat_append _ hk, e2, typeOfByte, hval, cfg0]
  · intro key v reg hk hv h43 h45 hval
    have e1 : (key ++ [58] ++ v ++ [124, 103]) ++ [0] =
        key ++ 58 :: (v ++ 124 :: (103 :: [0])) := by
      simp
    have h43' : v.head?.getD 0 ≠ 43 := by
      rw [← List.headD_eq_head?]; exact h43
    have h45' : v.head?.getD 0 ≠ 45 := by
      rw [← List.headD_eq_head?]; exact h45
    simp [processLine, e1, bat_append _ hk, bat_append _ hv, typeOfByte,
      hval, cfg0, h43', h45']
  · intro reg key w v hreg
    constructor
    · rw [addSample, hreg]
      simpa [mergeAcc, qAdd_eq] using lookup_setReg_self hreg _
    · rw [addSample, hreg]
      simpa [mergeAcc] using lookup_setReg_self hreg _
  · intro reg key v hreg
    constructor
    · rw [addSample, hreg]
      simp [freshAcc, lookupReg, qAdd_eq]
    · rw [addSample, hreg]
      simp [freshAcc, lookupReg]

/-- Witness for `claim_C2_amended`: `"x:+3|g"` ingests a `GaugeDelta` of 3,
and a delta of 3 on a stored gauge 5 yields 8. -/
theorem claim_C2_amended_witness :
    ((58 : Nat) ∉ asc "x") ∧
    processLine cfg0 Registry.empty
      ((asc "x") ++ [58] ++ (43 :: asc "3") ++ [124, 103]) =
      (addSample Registry.empty .gaugeDelta (asc "x") (str2double (asc "3")).1,
       some (.sample .gaugeDelta (asc "x") (str2double (asc "3")).1), true) ∧
    lookupReg (addSample [(asc "x", Acc.gaugeA 5)] .gaugeDelta (asc "x") 3)
      (asc "x") = some (.gaugeA (5 + 3)) :=
  ⟨by decide,
   claim_C2_amended.1 (asc "x") (asc "3") Registry.empty (by decide)
     (by decide) (by decide),
   (claim_C2_amended.2.2.2.1 [(asc "x", Acc.gaugeA 5)] (asc "x") 5 3
     (by decide)).1⟩

/-! ## Epoch isolation (C3) and final flush (C4) -/

/-- Modelled from the spec: split a trace of events into the groups of
samples delimited by rotations — the samples of each completed epoch, plus
the samples of the still-open epoch (§8.4 epoch isolation). -/
def epochGroupsAux : List Ev → List (MetricType × List Nat × ℚ) →
    List (List (MetricType × List Nat × ℚ)) × List (MetricType × List Nat × ℚ)
  | [], cur => ([], cur)
  | .add t n v :: rest, cur => epochGroupsAux rest (cur ++ [(t, n, v)])
  | .rotate :: rest, cur =>
      let r := epochGroupsAux rest []
      (cur :: r.1, r.2)

/-- The registry obtained by folding a list of samples into a fresh epoch. -/
def buildReg (samples : List (MetricType × List Nat × ℚ)) : Registry :=
  samples.foldl (fun reg s => addSample reg s.1 s.2.1 s.2.2) Registry.empty

theorem runEvs_groups : ∀ (evs : List Ev)
    (cur : List (MetricType × List Nat × ℚ)) (p d : List Registry),
    runEvs ⟨some (buildReg cur), p, d⟩ evs =
      ⟨some (buildReg (epochGroupsAux evs cur).2),
       p ++ ((epochGroupsAux evs cur).1.map buildReg), d⟩ := by
  intro evs
  induction evs with
  | nil => intro cur p d; simp [runEvs, epochGroupsAux]
  | cons e rest ih =>
      intro cur p d
      cases e with
      | add t n v =>
          have hstep : stepEv ⟨some (buildReg cur), p, d⟩ (.add t n v) =
              ⟨some (buildReg (cur ++ [(t, n, v)])), p, d⟩ := by
            simp [stepEv, buildReg]
          calc runEvs ⟨some (buildReg cur), p, d⟩ (.add t n v :: rest)
              = runEvs ⟨some (buildReg (cur ++ [(t, n, v)])), p, d⟩ rest := by
                simp [runEvs, hstep]
            _ = _ := by rw [ih]; simp [epochGroupsAux]
      | rotate =>
          have hstep : stepEv ⟨some (buildReg cur), p, d⟩ .rotate =
              ⟨some (buildReg []), p ++ [buildReg cur], d⟩ := by
            simp [stepEv, rotate, Registry.empty, buildReg]
          calc runEvs ⟨some (buildReg cur), p, d⟩ (.rotate :: rest)
              = runEvs ⟨some (buildReg []), p ++ [buildReg cur], d⟩ rest := by
                simp [runEvs, hstep]
            _ = _ := by rw [ih]; simp [epochGroupsAux]

/-- C3: in a sequential trace of ingestion and rotation events, every sample
is attributed to exactly one epoch — the registries retired by the rotations
are, in order, exactly the registries built from the sample groups delimited
by the rotations (no sample is dropped or double-counted), and the samples
after the last rotation sit only in the current registry, to be flushed by a
later rotation. -/
theorem claim_C3 (evs : List Ev) :
    (runEvs initState evs).pending =
      ((epochGroupsAux evs []).1).map buildReg ∧
    (runEvs initState evs).current =
      some (buildReg (epochGroupsAux evs []).2) ∧
    (runEvs initState evs).done = [] := by
  have h := runEvs_groups evs [] [] []
  have hinit : initState = ⟨some (buildReg []), [], []⟩ := by
    simp [initState, buildReg]
  rw [hinit, h]
  simp

/-- Witness for `claim_C3` on a concrete two-epoch trace. -/
theorem claim_C3_witness :
    (runEvs initState
      [Ev.add .counter (asc "a") 1, Ev.rotate,
       Ev.add .counter (asc "a") 2]).pending =
      ((epochGroupsAux
        [Ev.add .counter (asc "a") 1, Ev.rotate,
         Ev.add .counter (asc "a") 2] []).1).map buildReg ∧
    (runEvs initState
      [Ev.add .counter (asc "a") 1, Ev.rotate,
       Ev.add .counter (asc "a") 2]).current =
      some (buildReg (epochGroupsAux
        [Ev.add .counter (asc "a") 1, Ev.rotate,
         Ev.add .counter (asc "a") 2] []).2) ∧
    (runEvs initState
      [Ev.add .counter (asc "a") 1, Ev.rotate,
       Ev.add .counter (asc "a") 2]).done = [] :=
  claim_C3
    [Ev.add .counter (asc "a") 1, Ev.rotate, Ev.add .counter (asc "a") 2]

/-- C4: `final_flush` retires the same registry a `rotate` at that point
would retire, but joins the flush worker before returning (the retired
registry is in `done`, not `pending`, when the call returns) and leaves the
current-registry pointer as the null sentinel, after which every
`add_sample` is a no-op. -/
theorem claim_C4 (st : SysState) (r : Registry) (h : st.current = some r) :
    finalFlush st = ⟨none, st.pending, st.done ++ [r]⟩ ∧
    (rotate st).pending = st.pending ++ [r] ∧
    (∀ t n v, stepEv (finalFlush st) (.add t n v) = finalFlush st) := by
  refine ⟨by simp [finalFlush, h], by simp [rotate, h], ?_⟩
  intro t n v
  simp [finalFlush, h, stepEv]

/-- Witness for `claim_C4` at a concrete one-epoch state. -/
theorem claim_C4_witness :
    (SysState.mk (some [(asc "a", Acc.counterA 2 1)]) [] []).current =
      some [(asc "a", Acc.counterA 2 1)] ∧
    finalFlush (SysState.mk (some [(asc "a", Acc.counterA 2 1)]) [] []) =
      ⟨none, [], [] ++ [[(asc "a", Acc.counterA 2 1)]]⟩ ∧
    stepEv
      (finalFlush (SysState.mk (some [(asc "a", Acc.counterA 2 1)]) [] []))
      (.add .counter (asc "a") 1) =
      finalFlush (SysState.mk (some [(asc "a", Acc.counterA 2 1)]) [] []) := by
  have h := claim_C4 (SysState.mk (some [(asc "a", Acc.counterA 2 1)]) [] [])
    [(asc "a", Acc.counterA 2 1)] rfl
  exact ⟨rfl, h.1, h.2.2 .counter (asc "a") 1⟩

/-! ## Input counter (C5) -/

/-- The phase of `handle_ascii_client_connect` that runs before the
input-counter increment: the line splits at `:` and `|` and the type switch
recognizes the first type byte (the gauge sub-switch never rejects).  The
increment at conn_handler.c:384 happens exactly when this holds. -/
def lineTypeAccepted (line : List Nat) : Bool :=
  match bufferAfterTerminator 58 (line ++ [0]) with
  | none => false
  | some (_, rest1) =>
    match bufferAfterTerminator 124 rest1 with
    | none => false
    | some (_, typeStr) => decide (typeOfByte (typeStr.headD 0) ≠ .unknown)

theorem counterCount_addSample_self {reg : Registry} {ic : List Nat}
    (hwt : lookupReg reg ic = none ∨
      ∃ s c, lookupReg reg ic = some (.counterA s c)) (v : ℚ) :
    counterCount (addSample reg .counter ic v) ic = counterCount reg ic + 1 := by
  rcases hwt with h | ⟨s, c, h⟩
  · rw [counterCount, addSample_counter_fresh h v, counterCount, h]
  · rw [counterCount, addSample_counter_found h v, counterCount, h]

theorem counterCount_addSample_other {reg : Registry} {key ic : List Nat}
    (h : key ≠ ic) (t : MetricType) (v : ℚ) :
    counterCount (addSample reg t key v) ic = counterCount reg ic := by
  rw [counterCount, addSample_other (Ne.symm h) t v, counterCount]

theorem counterCount_addSetMember_other {reg : Registry} {key ic : List Nat}
    (h : key ≠ ic) (member : List Nat) :
    counterCount (addSetMember reg key member) ic = counterCount reg ic := by
  rw [counterCount, addSetMember_other (Ne.symm h) member, counterCount]

/-- A line rejected before the type switch completes leaves the registry
untouched. -/
theorem processLine_reg_of_rejected {cfg : Config} {reg : Registry}
    {line : List Nat} (h : lineTypeAccepted line = false) :
    (processLine cfg reg line).1 = reg := by
  rcases h1 : bufferAfterTerminator 58 (line ++ [0]) with _ | ⟨key, rest1⟩
  · simp [processLine, h1]
  · rcases h2 : bufferAfterTerminator 124 rest1 with _ | ⟨valStr0, typeStr⟩
    · simp [processLine, h1, h2]
    · simp only [lineTypeAccepted, h1, h2, decide_eq_false_iff_not,
        not_not] at h
      rw [List.headD_eq_head?] at h
      simp [processLine, h1, h2, h]

/-- A line that passes the type switch increments the configured input
counter exactly once, whatever happens afterwards, provided the line's own
key is not the input-counter name. -/
theorem processLine_inputCounter_of_accepted {cfg : Config} {ic : List Nat}
    {reg : Registry} {line : List Nat}
    (hic : cfg.inputCounter = some ic)
    (hkey : ∀ key r1, bufferAfterTerminator 58 (line ++ [0]) = some (key, r1) →
      key ≠ ic)
    (hwt : lookupReg reg ic = none ∨
      ∃ s c, lookupReg reg ic = some (.counterA s c))
    (h : lineTypeAccepted line = true) :
    counterCount (processLine cfg reg line).1 ic = counterCount reg ic + 1 := by
  rcases h1 : bufferAfterTerminator 58 (line ++ [0]) with _ | ⟨key, rest1⟩
  · rw [lineTypeAccepted, h1] at h; exact absurd h (by simp)
  rcases h2 : bufferAfterTerminator 124 rest1 with _ | ⟨valStr0, typeStr⟩
  · simp only [lineTypeAccepted, h1, h2] at h; exact absurd h (by simp)
  simp only [lineTypeAccepted, h1, h2] at h
  have htb : typeOfByte (typeStr.headD 0) ≠ .unknown := by
    simpa using h
  have hk : key ≠ ic := hkey key rest1 h1
  have hinc := counterCount_addSample_self hwt 1
  simp only [processLine, h1, h2, hic]
  rcases httb : typeOfByte (typeStr.headD 0) with
    _ | _ | _ | _ | _ | _ | _ <;>
    rw [httb] at htb
  case unknown => exact absurd rfl htb
  all_goals simp only [httb]
  all_goals repeat' split
  all_goals
    first
    | exact hinc
    | (rw [counterCount_addSample_other hk]; exact hinc)
    | (rw [counterCount_addSetMember_other hk]; exact hinc)
    | simp_all

/-- C5 counterexample: with `input_counter = "ic"`, the text line `"a:x|c"`
is rejected (its value fails numeric conversion, no sample is ingested), yet
the input counter was already incremented once — the increment at
conn_handler.c:384 precedes the value conversion at conn_handler.c:394. -/
theorem claim_C5_cex :
    (processLine ⟨some (asc "ic")⟩ Registry.empty (asc "a:x|c")).2.2 = false ∧
    (processLine ⟨some (asc "ic")⟩ Registry.empty (asc "a:x|c")).2.1 = none ∧
    counterCount (processLine ⟨some (asc "ic")⟩ Registry.empty (asc "a:x|c")).1
      (asc "ic") = 1 := by
  refine ⟨by decide, by decide, by decide⟩

/-- C5 (amended): when `input_counter` is configured, the text handler
increments it exactly once per line whose key/type fields parse (even when
the value or sample-rate conversion afterwards fails and the record is
rejected), and not at all for a line rejected before or at the type switch;
the binary handler increments it exactly once per fully validated record. -/
theorem claim_C5_amended :
    (∀ (cfg : Config) (ic : List Nat) (reg : Registry) (line : List Nat),
      cfg.inputCounter = some ic →
      (∀ key r1, bufferAfterTerminator 58 (line ++ [0]) = some (key, r1) →
        key ≠ ic) →
      (lookupReg reg ic = none ∨
        ∃ s c, lookupReg reg ic = some (.counterA s c)) →
      counterCount (processLine cfg reg line).1 ic =
        counterCount reg ic + (if lineTypeAccepted line then 1 else 0)) ∧
    (∀ (cfg : Config) (fuel : ℕ) (buf : List Nat),
      cfg.inputCounter.isSome = true →
      (binLoop cfg fuel buf).2.1 = (binLoop cfg fuel buf).1.length) := by
  constructor
  · intro cfg ic reg line hic hkey hwt
    cases hacc : lineTypeAccepted line with
    | false => simp [processLine_reg_of_rejected hacc]
    | true =>
        simp only [hacc, if_true]
        exact processLine_inputCounter_of_accepted hic hkey hwt hacc
  · intro cfg fuel
    induction fuel with
    | zero => intro buf h; simp [binLoop]
    | succ n ih =>
        intro buf h
        cases hstep : binaryStep buf with
        | needMore => simp [binLoop, hstep]
        | errB => simp [binLoop, hstep]
        | sampleB t key bits rest =>
            simp [binLoop, hstep, h, ih rest h, Nat.add_comm]
        | setB key member rest =>
            simp [binLoop, hstep, h, ih rest h, Nat.add_comm]

/-- Witness for `claim_C5_amended`: the accepted line `"a:1|c"` bumps the
input counter from 0 to 1, and a two-record binary buffer makes two
increments. -/
theorem claim_C5_amended_witness :
    (Config.mk (some (asc "ic"))).inputCounter = some (asc "ic") ∧
    counterCount
      (processLine ⟨some (asc "ic")⟩ Registry.empty (asc "a:1|c")).1
      (asc "ic") =
      counterCount Registry.empty (asc "ic") +
        (if lineTypeAccepted (asc "a:1|c") then 1 else 0) ∧
    (binLoop ⟨some (asc "ic")⟩ 3
        ([170, 1, 2, 0] ++ [7, 0, 0, 0, 0, 0, 0, 0] ++ [103, 0])).2.1 =
      (binLoop ⟨some (asc "ic")⟩ 3
        ([170, 1, 2, 0] ++ [7, 0, 0, 0, 0, 0, 0, 0] ++ [103, 0])).1.length := by
  refine ⟨rfl, ?_, ?_⟩
  · refine claim_C5_amended.1 ⟨some (asc "ic")⟩ (asc "ic") Registry.empty
      (asc "a:1|c") rfl ?_ (Or.inl rfl)
    intro key r1 hbat
    have hc : bufferAfterTerminator 58 (asc "a:1|c" ++ [0]) =
        some ([97], [49, 124, 99, 0]) := by decide
    rw [hc] at hbat
    cases hbat
    decide
  · exact claim_C5_amended.2 ⟨some (asc "ic")⟩ 3
      ([170, 1, 2, 0] ++ [7, 0, 0, 0, 0, 0, 0, 0] ++ [103, 0]) rfl

/-! ## Connection mode (C6) -/

/-- C6 counterexample: the claim says the parser mode is fixed for the
lifetime of the connection after the first byte.  The driver re-peeks on
every invocation: a connection that first delivers the text line
`"a:1|c\n"` followed by a buffered binary frame is dispatched to the text
parser (which leaves the frame unconsumed), and the next invocation of the
same connection is dispatched to the binary parser, which ingests the
frame. -/
theorem claim_C6_cex :
    (handleClientConnect cfg0 Registry.empty
      (asc "a:1|c\n" ++
        [170, 1, 2, 0, 65, 65, 65, 65, 65, 65, 65, 65, 103, 0])).1 =
      some .text ∧
    (handleClientConnect cfg0 Registry.empty
      (asc "a:1|c\n" ++
        [170, 1, 2, 0, 65, 65, 65, 65, 65, 65, 65, 65, 103, 0])).2.2.2.1 =
      [170, 1, 2, 0, 65, 65, 65, 65, 65, 65, 65, 65, 103, 0] ∧
    (handleClientConnect cfg0
      (handleClientConnect cfg0 Registry.empty
        (asc "a:1|c\n" ++
          [170, 1, 2, 0, 65, 65, 65, 65, 65, 65, 65, 65, 103, 0])).2.1
      [170, 1, 2, 0, 65, 65, 65, 65, 65, 65, 65, 65, 103, 0]).1 =
      some .binary ∧
    (handleClientConnect cfg0
      (handleClientConnect cfg0 Registry.empty
        (asc "a:1|c\n" ++
          [170, 1, 2, 0, 65, 65, 65, 65, 65, 65, 65, 65, 103, 0])).2.1
      [170, 1, 2, 0, 65, 65, 65, 65, 65, 65, 65, 65, 103, 0]).2.2.1 ≠ [] := by
  refine ⟨by decide, by decide, by decide, by decide⟩

/-- C6 (amended): the parser mode is chosen afresh on every driver
invocation by peeking the first buffered byte — `0xAA` dispatches the binary
parser, anything else the text parser, and no data at all dispatches
neither; the mode is not latched for the lifetime of the connection. -/
theorem claim_C6_amended :
    (∀ (cfg : Config) (reg : Registry),
      handleClientConnect cfg reg [] = (none, reg, [], [], 0)) ∧
    (∀ (cfg : Config) (reg : Registry) (buf : List Nat) (b : Nat),
      buf.head? = some b →
      (handleClientConnect cfg reg buf).1 =
        some (if b = 170 then Mode.binary else Mode.text)) := by
  constructor
  · intro cfg reg; rfl
  · intro cfg reg buf b hb
    cases buf with
    | nil => simp at hb
    | cons x rest =>
        have hx : x = b := by simpa using hb
        subst hx
        by_cases h170 : x = 170
        · simp [handleClientConnect, h170]
        · simp [handleClientConnect, h170]

/-- Witness for `claim_C6_amended`: a buffer starting `0xAA` is dispatched
to the binary parser, a buffer starting with `'a'` to the text parser. -/
theorem claim_C6_amended_witness :
    (([170] : List Nat).head? = some 170) ∧
    (handleClientConnect cfg0 Registry.empty [170]).1 =
      some (if (170 : Nat) = 170 then Mode.binary else Mode.text) ∧
    ((asc "a:1|c\n").head? = some 97) ∧
    (handleClientConnect cfg0 Registry.empty (asc "a:1|c\n")).1 =
      some (if (97 : Nat) = 170 then Mode.binary else Mode.text) :=
  ⟨rfl, claim_C6_amended.2 cfg0 Registry.empty [170] 170 rfl, by decide,
   claim_C6_amended.2 cfg0 Registry.empty (asc "a:1|c\n") 97 (by decide)⟩

/-! ## Binary non-set framing (C7) -/

/-- C7: a binary non-set record (valid magic, a known non-set type code,
key length at least 1) requires exactly `4 + 8 + key_len = 12 + key_len`
bytes: with fewer bytes buffered the parser reports need-more-data and the
handler consumes nothing; with enough bytes, a non-NUL last key byte is a
framing error; otherwise exactly one sample is ingested whose value bits are
the little-endian 64-bit double following the 4-byte preamble and whose key
is the trailing `key_len` bytes, the record being consumed exactly. -/
theorem claim_C7 (buf : List Nat) (t : MetricType)
    (h4 : 4 ≤ buf.length)
    (hmagic : buf.getD 0 0 = 170)
    (htype : typeOfBinByte (buf.getD 1 0) = t) (ht : t ≠ .unknown)
    (hset : buf.getD 1 0 ≠ 4) :
    (buf.length < 12 + binKeyLen buf →
      binaryStep buf = .needMore ∧
      handleBinary cfg0 buf = ([], 0, buf, 0)) ∧
    (12 + binKeyLen buf ≤ buf.length →
      buf.getD (12 + binKeyLen buf - 1) 0 ≠ 0 →
      binaryStep buf = .errB ∧
      (handleBinary cfg0 buf).2.2.2 = -1) ∧
    (12 + binKeyLen buf ≤ buf.length →
      buf.getD (12 + binKeyLen buf - 1) 0 = 0 →
      binaryStep buf = .sampleB t ((buf.drop 12).take (binKeyLen buf))
        (readLEList ((buf.drop 4).take 8)) (buf.drop (12 + binKeyLen buf))) := by
  have htu : ¬ (typeOfBinByte (buf.getD 1 0) = .unknown) := by
    rw [htype]; exact ht
  have harm : ∀ _ : ¬ buf.length < 6, binaryStep buf =
      if buf.length < 12 + binKeyLen buf then .needMore
      else if buf.getD (12 + binKeyLen buf - 1) 0 ≠ 0 then .errB
      else .sampleB (typeOfBinByte (buf.getD 1 0))
        ((buf.drop 12).take (binKeyLen buf))
        (readLEList ((buf.drop 4).take 8))
        (buf.drop (12 + binKeyLen buf)) := by
    intro hn6
    rw [binaryStep]
    rw [if_neg hn6, if_neg (not_not_intro hmagic), if_neg hset, if_neg htu]
  refine ⟨?_, ?_, ?_⟩
  · intro hlt
    by_cases h6 : buf.length < 6
    · have hstep : binaryStep buf = .needMore := by
        rw [binaryStep, if_pos h6]
      exact ⟨hstep, by simp [handleBinary, binLoop, hstep]⟩
    · have hstep : binaryStep buf = .needMore := by
        rw [harm h6, if_pos hlt]
      exact ⟨hstep, by simp [handleBinary, binLoop, hstep]⟩
  · intro hge hnul
    have h6 : ¬ buf.length < 6 := by omega
    have hnotlt : ¬ buf.length < 12 + binKeyLen buf := by omega
    have hstep : binaryStep buf = .errB := by
      rw [harm h6, if_neg hnotlt, if_pos hnul]
    exact ⟨hstep, by simp [handleBinary, binLoop, hstep]⟩
  · intro hge hnul
    have h6 : ¬ buf.length < 6 := by omega
    have hnotlt : ¬ buf.length < 12 + binKeyLen buf := by omega
    rw [harm h6, if_neg hnotlt, if_neg (not_not_intro hnul), htype]

/-! ## Value parsing errors (C8) -/

theorem intLoop_rest_length (s : List Nat) : ∀ v : ℚ,
    (intLoop v s).2.length ≤ s.length := by
  induction s with
  | nil => intro v; simp [intLoop]
  | cons c t ih =>
      intro v
      by_cases hc : isDigitB c
      · simp only [intLoop, if_pos hc]
        exact le_trans (ih _) (by simp)
      · simp [intLoop, hc]

theorem fracLoop_rest_length (s : List Nat) : ∀ (f : ℚ) (d : ℕ),
    (fracLoop f d s).2.2.length ≤ s.length := by
  induction s with
  | nil => intro f d; simp [fracLoop]
  | cons c t ih =>
      intro f d
      by_cases hc : isDigitB c
      · simp only [fracLoop, if_pos hc]
        exact le_trans (ih _ _) (by simp)
      · simp [fracLoop, hc]

/-- The remainder after the integer loop and the optional fraction loop run
on `u` is no longer than `u`. -/
theorem rest_after_int_length (u : List Nat) (v : ℚ) :
    (if (intLoop v u).2.headD 0 = 46
     then (fracLoop 0 0 (intLoop v u).2.tail).2.2
     else (intLoop v u).2).length ≤ u.length := by
  have h1 := intLoop_rest_length u v
  by_cases h : (intLoop v u).2.headD 0 = 46
  · rw [if_pos h]
    have h2 := fracLoop_rest_length ((intLoop v u).2.tail) 0 0
    have h3 : (intLoop v u).2.tail.length ≤ (intLoop v u).2.length := by
      cases (intLoop v u).2 with
      | nil => simp
      | cons a l => simp
    omega
  · rw [if_neg h]; exact h1

/-- A value slice whose first byte is `-`, `.` or a digit consumes at least
that byte. -/
theorem str2double_consumes {c : Nat} (t : List Nat)
    (h : c = 45 ∨ c = 46 ∨ isDigitB c) :
    (str2double (c :: t)).2.length ≤ t.length := by
  by_cases h45 : c = 45
  · subst h45
    have hx := rest_after_int_length t 0
    by_cases hd : (intLoop (0 : ℚ) t).2.headD 0 = 46
    · rw [if_pos hd] at hx
      have hd' : (intLoop (0 : ℚ) t).2.head?.getD 0 = 46 := by
        rw [← List.headD_eq_head?]; exact hd
      simpa [str2double, hd'] using hx
    · rw [if_neg hd] at hx
      have hd' : ¬ (intLoop (0 : ℚ) t).2.head?.getD 0 = 46 := by
        rw [← List.headD_eq_head?]; exact hd
      simpa [str2double, hd'] using hx
  · by_cases h46 : c = 46
    · subst h46
      have hnd : ¬ isDigitB 46 := by decide
      have he : intLoop (0 : ℚ) (46 :: t) = (0, 46 :: t) := by
        simp [intLoop, hnd]
      simpa [str2double, he] using fracLoop_rest_length t 0 0
    · have hdig : isDigitB c := by tauto
      have he : intLoop (0 : ℚ) (c :: t) =
          intLoop (qAdd (qMul 0 10) ((c - 48 : ℕ) : ℚ)) t := by
        simp [intLoop, hdig]
      have hx := rest_after_int_length t (qAdd (qMul 0 10) ((c - 48 : ℕ) : ℚ))
      by_cases hd :
          (intLoop (qAdd (qMul 0 10) ((c - 48 : ℕ) : ℚ)) t).2.headD 0 = 46
      · rw [if_pos hd] at hx
        have hd' : (intLoop (qAdd (qMul 0 10) ((c - 48 : ℕ) : ℚ))
            t).2.head?.getD 0 = 46 := by
          rw [← List.headD_eq_head?]; exact hd
        simpa [str2double, h45, he, hd'] using hx
      · rw [if_neg hd] at hx
        have hd' : ¬ (intLoop (qAdd (qMul 0 10) ((c - 48 : ℕ) : ℚ))
            t).2.head?.getD 0 = 46 := by
          rw [← List.headD_eq_head?]; exact hd
        simpa [str2double, h45, he, hd'] using hx

/-- Lemma: `str2double` consumes nothing exactly when the leading byte of the slice
is neither `-` nor `.` nor a digit (the `endptr == val_str` test of the
caller at conn_handler.c:395). -/
theorem str2double_stops_iff (s : List Nat) :
    (str2double s).2 = s ↔
      ¬ (s.headD 0 = 45 ∨ s.headD 0 = 46 ∨ isDigitB (s.headD 0)) := by
  constructor
  · intro hrest
    intro h
    cases s with
    | nil => simp [List.headD, isDigitB] at h
    | cons c t =>
        simp only [List.headD_cons] at h
        have := str2double_consumes t h
        rw [hrest] at this
        simp at this
  · intro h
    cases s with
    | nil => rfl
    | cons c t =>
        simp only [List.headD_cons] at h
        push_neg at h
        obtain ⟨h45, h46, hdig⟩ := h
        have he : intLoop (0 : ℚ) (c :: t) = (0, c :: t) := by
          simp [intLoop, hdig]
        simp [str2double, h45, he, h46]

/-- Every `processLine` result either ingests nothing or reports success. -/
theorem processLine_shape (cfg : Config) (reg : Registry) (line : List Nat) :
    (processLine cfg reg line).2.1 = none ∨
      (processLine cfg reg line).2.2 = true := by
  rcases h1 : bufferAfterTerminator 58 (line ++ [0]) with _ | ⟨key, rest1⟩
  · simp [processLine, h1]
  rcases h2 : bufferAfterTerminator 124 rest1 with _ | ⟨valStr0, typeStr⟩
  · simp [processLine, h1, h2]
  simp only [processLine, h1, h2]
  repeat' split
  all_goals simp

/-- A rejected line never ingests a sample of its own. -/
theorem processLine_false_none (cfg : Config) (reg : Registry)
    (line : List Nat) (h : (processLine cfg reg line).2.2 = false) :
    (processLine cfg reg line).2.1 = none := by
  rcases processLine_shape cfg reg line with h1 | h1
  · exact h1
  · rw [h1] at h; exact absurd h (by simp)

/-- C8 counterexample: the line `"a:-|c"` has no digit anywhere, so no digit
is consumed from its value slice `"-"`, yet the parser does not raise a
parse error — the line is accepted and a counter sample of value 0 is
ingested.  The `endptr == val_str` check only fires when no character at all
was consumed, and `str2double` consumed the `-`. -/
theorem claim_C8_cex :
    (∀ c ∈ asc "a:-|c", ¬ isDigitB c) ∧
    (str2double (asc "-")).2 = [] ∧
    (processLine cfg0 Registry.empty (asc "a:-|c")).2.2 = true ∧
    (processLine cfg0 Registry.empty (asc "a:-|c")).2.1 =
      some (.sample .counter (asc "a") 0) := by
  refine ⟨by decide, by decide, by decide, by decide⟩

/-- C8 (amended): the numeric grammar is an optional leading `-`, an integer
digit run, and an optional `.` with fractional digits, with no exponents
(`"1e5"` parses as 1, stopping at `e`; `"-12.5"` parses fully to `-25/2`);
the parser raises a parse error — the line is discarded with no sample
ingested and -1 is returned to the driver — exactly when no *character* is
consumed from the value slice, i.e. when its first byte is none of `-`, `.`
or a digit (so slices like `"-"` or `"."` are accepted as 0 rather than
rejected). -/
theorem claim_C8_amended :
    (∀ s : List Nat, ((str2double s).2 = s ↔
      ¬ (s.headD 0 = 45 ∨ s.headD 0 = 46 ∨ isDigitB (s.headD 0)))) ∧
    (∀ (cfg : Config) (reg : Registry) (line : List Nat),
      (processLine cfg reg line).2.2 = false →
      (processLine cfg reg line).2.1 = none) ∧
    (∀ (cfg : Config) (fuel : ℕ) (reg : Registry) (buf line rest : List Nat),
      bufferAfterTerminator 10 buf = some (line, rest) →
      (processLine cfg reg line).2.2 = false →
      asciiLoop cfg (fuel + 1) reg buf =
        ((processLine cfg reg line).1, rest, -1)) ∧
    (str2double (asc "1e5")).1 = 1 ∧ (str2double (asc "1e5")).2 = asc "e5" ∧
    (str2double (asc "-12.5")).1 = mkRat (-25) 2 ∧
    (str2double (asc "-12.5")).2 = [] := by
  refine ⟨str2double_stops_iff, processLine_false_none, ?_,
    by decide, by decide, by decide, by decide⟩
  intro cfg fuel reg buf line rest hbat hfalse
  rcases hproc : processLine cfg reg line with ⟨reg2, i, ok⟩
  rw [hproc] at hfalse
  simp only [] at hfalse
  subst hfalse
  simp [asciiLoop, hbat, hproc]

/-- Witness for `claim_C7`: a truncated frame gives need-more-data without
consumption; a frame whose key does not end in NUL is a framing error; a
well-formed counter frame ingests exactly one sample. -/
theorem claim_C7_witness :
    binaryStep [170, 2, 2, 0, 1] = .needMore ∧
    handleBinary cfg0 [170, 2, 2, 0, 1] = ([], 0, [170, 2, 2, 0, 1], 0) ∧
    binaryStep [170, 2, 2, 0, 1, 2, 3, 4, 5, 6, 7, 8, 107, 9] = .errB ∧
    binaryStep [170, 2, 2, 0, 1, 2, 3, 4, 5, 6, 7, 8, 107, 0] =
      .sampleB .counter
        (([170, 2, 2, 0, 1, 2, 3, 4, 5, 6, 7, 8, 107, 0].drop 12).take
          (binKeyLen [170, 2, 2, 0, 1, 2, 3, 4, 5, 6, 7, 8, 107, 0]))
        (readLEList
          (([170, 2, 2, 0, 1, 2, 3, 4, 5, 6, 7, 8, 107, 0].drop 4).take 8))
        ([170, 2, 2, 0, 1, 2, 3, 4, 5, 6, 7, 8, 107, 0].drop
          (12 + binKeyLen [170, 2, 2, 0, 1, 2, 3, 4, 5, 6, 7, 8, 107, 0])) := by
  have h1 := claim_C7 [170, 2, 2, 0, 1] .counter (by decide) (by decide)
    (by decide) (by decide) (by decide)
  have h2 := claim_C7 [170, 2, 2, 0, 1, 2, 3, 4, 5, 6, 7, 8, 107, 9] .counter
    (by decide) (by decide) (by decide) (by decide) (by decide)
  have h3 := claim_C7 [170, 2, 2, 0, 1, 2, 3, 4, 5, 6, 7, 8, 107, 0] .counter
    (by decide) (by decide) (by decide) (by decide) (by decide)
  exact ⟨(h1.1 (by decide)).1, (h1.1 (by decide)).2,
    (h2.2.1 (by decide) (by decide)).1, h3.2.2 (by decide) (by decide)⟩

/-- Witness for `claim_C8_amended`: the slice `"x"` consumes nothing, and
the line `"a:x|c"` makes the driver loop stop with -1. -/
theorem claim_C8_amended_witness :
    ((str2double (asc "x")).2 = asc "x" ↔
      ¬ ((asc "x").headD 0 = 45 ∨ (asc "x").headD 0 = 46 ∨
        isDigitB ((asc "x").headD 0))) ∧
    bufferAfterTerminator 10 (asc "a:x|c\n") = some (asc "a:x|c", []) ∧
    (processLine cfg0 Registry.empty (asc "a:x|c")).2.2 = false ∧
    asciiLoop cfg0 (0 + 1) Registry.empty (asc "a:x|c\n") =
      ((processLine cfg0 Registry.empty (asc "a:x|c")).1, [], -1) :=
  ⟨claim_C8_amended.1 (asc "x"), by decide, by decide,
   claim_C8_amended.2.2.1 cfg0 0 Registry.empty (asc "a:x|c\n")
     (asc "a:x|c") [] (by decide) (by decide)⟩

/-! ## Binary output round-trip (C9) -/

theorem leBytes_length : ∀ w n : ℕ, (leBytes w n).length = w := by
  intro w
  induction w with
  | zero => intro n; rfl
  | succ v ih => intro n; simp [leBytes, ih]

theorem readLEList_leBytes : ∀ w n : ℕ, n < 256 ^ w →
    readLEList (leBytes w n) = n := by
  intro w
  induction w with
  | zero =>
      intro n h
      interval_cases n
      rfl
  | succ v ih =>
      intro n h
      have hdiv : n / 256 < 256 ^ v := by
        rw [Nat.div_lt_iff_lt_mul (by norm_num : 0 < 256)]
        calc n < 256 ^ (v + 1) := h
          _ = 256 ^ v * 256 := by ring
      simp only [leBytes, readLEList, ih (n / 256) hdiv]
      exact Nat.mod_add_div n 256

/-- C9: every record emitted by `stream_bin_writer` — the packed
little-endian prefix `timestamp:u64 | type:u8 | value_type:u8 | key_len:u16 |
value:f64` followed by the NUL-terminated name of exactly `key_len` bytes —
is inverted exactly by the inverse parser: the timestamp, type code,
value_type code, key string and the 64-bit value image are recovered
bit-identically, with no bytes left over. -/
theorem claim_C9 (ts ty vt vb : Nat) (name : List Nat)
    (hts : ts < 2 ^ 64) (hty : ty < 256) (hvt : vt < 256) (hvb : vb < 2 ^ 64)
    (hname : name.length + 1 < 65536) :
    readBinRecord (stream_bin_writer ts ty vt vb name) =
      some (ts, ty, vt, vb, name, []) := by
  have hklmod : (name.length + 1) % 65536 = name.length + 1 :=
    Nat.mod_eq_of_lt hname
  have hts' : ts < 256 ^ 8 := by
    calc ts < 2 ^ 64 := hts
      _ = 256 ^ 8 := by norm_num
  have hvb' : vb < 256 ^ 8 := by
    calc vb < 2 ^ 64 := hvb
      _ = 256 ^ 8 := by norm_num
  have hkl' : name.length + 1 < 256 ^ 2 := by
    calc name.length + 1 < 65536 := hname
      _ = 256 ^ 2 := by norm_num
  have hout : stream_bin_writer ts ty vt vb name =
      leBytes 8 ts ++ ([ty % 256] ++ ([vt % 256] ++
        (leBytes 2 (name.length + 1) ++ (leBytes 8 vb ++ (name ++ [0]))))) := by
    simp [stream_bin_writer, hklmod]
  have hlen : (stream_bin_writer ts ty vt vb name).length =
      21 + name.length := by
    simp [hout, leBytes_length]
    omega
  have e8 : (stream_bin_writer ts ty vt vb name).take 8 = leBytes 8 ts := by
    rw [hout]; exact List.take_left' (leBytes_length 8 ts)
  have d8 : (stream_bin_writer ts ty vt vb name).drop 8 =
      [ty % 256] ++ ([vt % 256] ++ (leBytes 2 (name.length + 1) ++
        (leBytes 8 vb ++ (name ++ [0])))) := by
    rw [hout]; exact List.drop_left' (leBytes_length 8 ts)
  have d9 : (stream_bin_writer ts ty vt vb name).drop 9 =
      [vt % 256] ++ (leBytes 2 (name.length + 1) ++
        (leBytes 8 vb ++ (name ++ [0]))) := by
    have hre : stream_bin_writer ts ty vt vb name =
        (leBytes 8 ts ++ [ty % 256]) ++ ([vt % 256] ++
          (leBytes 2 (name.length + 1) ++ (leBytes 8 vb ++ (name ++ [0])))) := by
      simp [hout]
    rw [hre]
    exact List.drop_left' (by simp [leBytes_length])
  have d10 : (stream_bin_writer ts ty vt vb name).drop 10 =
      leBytes 2 (name.length + 1) ++ (leBytes 8 vb ++ (name ++ [0])) := by
    have hre : stream_bin_writer ts ty vt vb name =
        (leBytes 8 ts ++ [ty % 256] ++ [vt % 256]) ++
          (leBytes 2 (name.length + 1) ++ (leBytes 8 vb ++ (name ++ [0]))) := by
      simp [hout]
    rw [hre]
    exact List.drop_left' (by simp [leBytes_length])
  have d12 : (stream_bin_writer ts ty vt vb name).drop 12 =
      leBytes 8 vb ++ (name ++ [0]) := by
    have hre : stream_bin_writer ts ty vt vb name =
        (leBytes 8 ts ++ [ty % 256] ++ [vt % 256] ++
          leBytes 2 (name.length + 1)) ++ (leBytes 8 vb ++ (name ++ [0])) := by
      simp [hout]
    rw [hre]
    exact List.drop_left' (by simp [leBytes_length])
  have d20 : (stream_bin_writer ts ty vt vb name).drop 20 = name ++ [0] := by
    have hre : stream_bin_writer ts ty vt vb name =
        (leBytes 8 ts ++ [ty % 256] ++ [vt % 256] ++
          leBytes 2 (name.length + 1) ++ leBytes 8 vb) ++ (name ++ [0]) := by
      simp [hout]
    rw [hre]
    exact List.drop_left' (by simp [leBytes_length])
  have hnotlt : ¬ (stream_bin_writer ts ty vt vb name).length < 20 := by
    omega
  have hkl : readLEList (((stream_bin_writer ts ty vt vb name).drop 10).take 2) =
      name.length + 1 := by
    rw [d10, List.take_left' (leBytes_length 2 (name.length + 1))]
    exact readLEList_leBytes 2 (name.length + 1) hkl'
  have hnotlt2 : ¬ (stream_bin_writer ts ty vt vb name).length <
      20 + (name.length + 1) := by
    omega
  have hkeyArea : ((stream_bin_writer ts ty vt vb name).drop 20).take
      (name.length + 1) = name ++ [0] := by
    rw [d20]
    have : (name ++ [0]).length = name.length + 1 := by simp
    rw [← this, List.take_length]
  have hdropAll : (stream_bin_writer ts ty vt vb name).drop
      (20 + (name.length + 1)) = [] := by
    apply List.drop_eq_nil_of_le
    omega
  have tv8 : (leBytes 8 vb ++ (name ++ [0])).take 8 = leBytes 8 vb :=
    List.take_left' (leBytes_length 8 vb)
  simp only [readBinRecord, if_neg hnotlt, e8,
    readLEList_leBytes 8 ts hts', d8, d9, List.singleton_append,
    List.headD_cons, Nat.mod_eq_of_lt hty, Nat.mod_eq_of_lt hvt, hkl, d12,
    tv8, readLEList_leBytes 8 vb hvb', if_neg hnotlt2, d20, hkeyArea,
    List.getLast?_concat, List.dropLast_concat, hdropAll]
  have htake : List.take (name.length + 1) (name ++ [0]) = name ++ [0] := by
    have h : (name ++ [0]).length = name.length + 1 := by simp
    rw [← h, List.take_length]
  simp [htake]

/-- Witness for `claim_C9`: a concrete gauge record round-trips. -/
theorem claim_C9_witness :
    readBinRecord (stream_bin_writer 100 5 0 4631107791820423168 (asc "g")) =
      some (100, 5, 0, 4631107791820423168, asc "g", []) :=
  claim_C9 100 5 0 4631107791820423168 (asc "g") (by norm_num) (by norm_num)
    (by norm_num) (by norm_num) (by decide)

/-! ## Type-field tolerance (C10) -/

/-- C10: only the first byte of the field after the first `|` selects the
metric type.  Concretely `"a:1|cool"` is accepted as a counter of value 1;
in general extra bytes after a non-counter type letter are ignored even if
they contain `@`, extra bytes after `c` that contain no `@` are ignored, and
for counters the sample rate is taken from the slice after the first `@`
found anywhere in the remainder — no literal `|@` is required. -/
theorem claim_C10 :
    ((processLine cfg0 Registry.empty (asc "a:1|cool")).2 =
      (some (.sample .counter (asc "a") 1), true)) ∧
    (∀ (key v : List Nat) (t0 : Nat) (junk : List Nat) (reg : Registry),
      (t0 = 109 ∨ t0 = 107 ∨ t0 = 103 ∨ t0 = 115) →
      (58 : Nat) ∉ key → (124 : Nat) ∉ v →
      processLine cfg0 reg (key ++ [58] ++ v ++ [124] ++ t0 :: junk) =
        processLine cfg0 reg (key ++ [58] ++ v ++ [124, t0])) ∧
    (∀ (key v junk : List Nat) (reg : Registry),
      (58 : Nat) ∉ key → (124 : Nat) ∉ v → (64 : Nat) ∉ junk →
      processLine cfg0 reg (key ++ [58] ++ v ++ [124] ++ 99 :: junk) =
        processLine cfg0 reg (key ++ [58] ++ v ++ [124, 99])) ∧
    (∀ (key v junk rs : List Nat) (reg : Registry),
      (58 : Nat) ∉ key → (124 : Nat) ∉ v → (64 : Nat) ∉ junk →
      processLine cfg0 reg
        (key ++ [58] ++ v ++ [124] ++ (99 :: junk) ++ 64 :: rs) =
        processLine cfg0 reg (key ++ [58] ++ v ++ [124, 99, 64] ++ rs)) := by
  refine ⟨by decide, ?_, ?_, ?_⟩
  · intro key v t0 junk reg ht0 hk hv
    have b2L : bufferAfterTerminator 124 (v ++ 124 :: (t0 :: (junk ++ [0]))) =
        some (v, t0 :: (junk ++ [0])) := bat_append _ hv
    have b2R : bufferAfterTerminator 124 (v ++ 124 :: [t0, 0]) =
        some (v, [t0, 0]) := bat_append _ hv
    rcases ht0 with h | h | h | h <;> subst h <;>
      simp [processLine, bat_append _ hk, b2L, b2R, typeOfByte]
    all_goals
      by_cases h43 : v.head?.getD 0 = 43 <;>
        by_cases h45 : v.head?.getD 0 = 45 <;>
        simp [h43, h45]
  · intro key v junk reg hk hv hj
    have b2L : bufferAfterTerminator 124 (v ++ 124 :: (99 :: (junk ++ [0]))) =
        some (v, 99 :: (junk ++ [0])) := bat_append _ hv
    have b2R : bufferAfterTerminator 124 (v ++ 124 :: [99, 0]) =
        some (v, [99, 0]) := bat_append _ hv
    have hno : (64 : Nat) ∉ 99 :: (junk ++ [0]) := by
      intro hmem
      rcases List.mem_cons.1 hmem with h | h
      · exact absurd h (by decide)
      · rcases List.mem_append.1 h with h | h
        · exact hj h
        · simp at h
    have bscanL : bufferAfterTerminator 64 (99 :: (junk ++ [0])) = none :=
      bat_none hno
    have bscanR : bufferAfterTerminator 64 [99, 0] = none := by decide
    simp [processLine, bat_append _ hk, b2L, b2R, typeOfByte, bscanL, bscanR]
  · intro key v junk rs reg hk hv hj
    have b2L : bufferAfterTerminator 124
        (v ++ 124 :: (99 :: (junk ++ 64 :: (rs ++ [0])))) =
        some (v, 99 :: (junk ++ 64 :: (rs ++ [0]))) := bat_append _ hv
    have b2R : bufferAfterTerminator 124 (v ++ 124 :: (99 :: 64 :: (rs ++ [0]))) =
        some (v, 99 :: 64 :: (rs ++ [0])) := bat_append _ hv
    have hno : (64 : Nat) ∉ 99 :: junk := by
      intro hmem
      rcases List.mem_cons.1 hmem with h | h
      · exact absurd h (by decide)
      · exact hj h
    have bscanL : bufferAfterTerminator 64
        (99 :: (junk ++ 64 :: (rs ++ [0]))) =
        some (99 :: junk, rs ++ [0]) := by
      have := @bat_append 64 (99 :: junk) (rs ++ [0]) hno
      simpa using this
    have bscanR : bufferAfterTerminator 64 (99 :: 64 :: (rs ++ [0])) =
        some ([99], rs ++ [0]) := by
      simp [bufferAfterTerminator]
    simp [processLine, bat_append _ hk, b2L, b2R, typeOfByte, bscanL, bscanR]

/-- Witness for `claim_C10`: `"a:1|mool"` ingests like `"a:1|m"`,
`"a:1|cool"` like `"a:1|c"`, and `"a:3|cx@0.5"` takes the rate after the
first `@` like `"a:3|c@0.5"`. -/
theorem claim_C10_witness :
    processLine cfg0 Registry.empty
      ((asc "a") ++ [58] ++ (asc "1") ++ [124] ++ 109 :: asc "ool") =
      processLine cfg0 Registry.empty ((asc "a") ++ [58] ++ (asc "1") ++ [124, 109]) ∧
    processLine cfg0 Registry.empty
      ((asc "a") ++ [58] ++ (asc "1") ++ [124] ++ 99 :: asc "ool") =
      processLine cfg0 Registry.empty ((asc "a") ++ [58] ++ (asc "1") ++ [124, 99]) ∧
    processLine cfg0 Registry.empty
      ((asc "a") ++ [58] ++ (asc "3") ++ [124] ++ (99 :: asc "x") ++ 64 :: asc "0.5") =
      processLine cfg0 Registry.empty
        ((asc "a") ++ [58] ++ (asc "3") ++ [124, 99, 64] ++ asc "0.5") :=
  ⟨claim_C10.2.1 (asc "a") (asc "1") 109 (asc "ool") Registry.empty
     (Or.inl rfl) (by decide) (by decide),
   claim_C10.2.2.1 (asc "a") (asc "1") (asc "ool") Registry.empty
     (by decide) (by decide) (by decide),
   claim_C10.2.2.2 (asc "a") (asc "3") (asc "x") (asc "0.5") Registry.empty
     (by decide) (by decide) (by decide)⟩

end Statsite
